import Mathlib

/-!
Verification of the zendo_api simulation and ETL pipeline.

The Python sources are shallowly embedded in Lean 4. Numeric values
(Python floats) are modelled as exact rationals; machine integers as Nat
and Int. Fallible calls (functions that raise) return Except. Each
embedded definition is annotated with the source file and function it
translates.
-/

/-! ## lib/predictable_jitter.py and its SHA-256 dependency

`predictable_jitter` hashes `str(input)` with hashlib sha256, reads the
digest as a 256-bit integer, reduces it to [-100, 100], scales into the
jitter range and rounds half-to-even (Python round) at `round_to`
decimals. SHA-256 itself (a dependency from the standard library, not
repository code) is implemented below over byte lists so that digests of
concrete keys can be evaluated by the kernel.
-/

namespace Sha

def M32 : Nat := 4294967296

def rotr (n x : Nat) : Nat := (x >>> n) + ((x % (2 ^ n)) <<< (32 - n))

def shr (n x : Nat) : Nat := x >>> n

def bnot32 (x : Nat) : Nat := 4294967295 - x

def bigSigma0 (x : Nat) : Nat := (rotr 2 x) ^^^ ((rotr 13 x) ^^^ (rotr 22 x))

def bigSigma1 (x : Nat) : Nat := (rotr 6 x) ^^^ ((rotr 11 x) ^^^ (rotr 25 x))

def smallSigma0 (x : Nat) : Nat := (rotr 7 x) ^^^ ((rotr 18 x) ^^^ (shr 3 x))

def smallSigma1 (x : Nat) : Nat := (rotr 17 x) ^^^ ((rotr 19 x) ^^^ (shr 10 x))

def ch (e f g : Nat) : Nat := (e &&& f) ^^^ ((bnot32 e) &&& g)

def maj (a b c : Nat) : Nat := (a &&& b) ^^^ ((a &&& c) ^^^ (b &&& c))

def K : List Nat :=
  [1116352408, 1899447441, 3049323471, 3921009573, 961987163, 1508970993,
   2453635748, 2870763221, 3624381080, 310598401, 607225278, 1426881987,
   1925078388, 2162078206, 2614888103, 3248222580, 3835390401, 4022224774,
   264347078, 604807628, 770255983, 1249150122, 1555081692, 1996064986,
   2554220882, 2821834349, 2952996808, 3210313671, 3336571891, 3584528711,
   113926993, 338241895, 666307205, 773529912, 1294757372, 1396182291,
   1695183700, 1986661051, 2177026350, 2456956037, 2730485921, 2820302411,
   3259730800, 3345764771, 3516065817, 3600352804, 4094571909, 275423344,
   430227734, 506948616, 659060556, 883997877, 958139571, 1322822218,
   1537002063, 1747873779, 1955562222, 2024104815, 2227730452, 2361852424,
   2428436474, 2756734187, 3204031479, 3329325298]

def H0 : List Nat :=
  [1779033703, 3144134277, 1013904242, 2773480762, 1359893119,
   2600822924, 528734635, 1541459225]

/-- Pad a byte message per SHA-256: append 0x80, zeros up to 56 mod 64,
then the 64-bit big-endian bit length. -/
def pad (msg : List Nat) : List Nat :=
  let l := msg.length
  let zeros := (64 - ((l + 9) % 64)) % 64
  let lenBytes := (List.range 8).map (fun i => ((8 * l) >>> (8 * (7 - i))) % 256)
  msg ++ [0x80] ++ List.replicate zeros 0 ++ lenBytes

/-- Group bytes into 32-bit big-endian words. -/
def toWords : List Nat → List Nat
  | b0 :: b1 :: b2 :: b3 :: rest => (((b0 * 256 + b1) * 256 + b2) * 256 + b3) :: toWords rest
  | _ => []

/-- Split a word list into blocks of 16 words. -/
def chunks16 : List Nat → List (List Nat)
  | a1 :: a2 :: a3 :: a4 :: a5 :: a6 :: a7 :: a8 ::
    a9 :: a10 :: a11 :: a12 :: a13 :: a14 :: a15 :: a16 :: rest =>
      [a1, a2, a3, a4, a5, a6, a7, a8, a9, a10, a11, a12, a13, a14, a15, a16] :: chunks16 rest
  | _ => []

/-- Extend a 16-word block with `i` further schedule words. -/
def schedule (w : List Nat) : Nat → List Nat
  | 0 => w
  | n + 1 =>
    let w' := schedule w n
    let t := (smallSigma1 (w'.getD (w'.length - 2) 0) + w'.getD (w'.length - 7) 0 +
              smallSigma0 (w'.getD (w'.length - 15) 0) + w'.getD (w'.length - 16) 0) % M32
    w' ++ [t]

structure Regs where
  a : Nat
  b : Nat
  c : Nat
  d : Nat
  e : Nat
  f : Nat
  g : Nat
  h : Nat

def roundStep (r : Regs) (kw : Nat × Nat) : Regs :=
  let t1 := (r.h + bigSigma1 r.e + ch r.e r.f r.g + kw.1 + kw.2) % M32
  let t2 := (bigSigma0 r.a + maj r.a r.b r.c) % M32
  ⟨(t1 + t2) % M32, r.a, r.b, r.c, (r.d + t1) % M32, r.e, r.f, r.g⟩

def compress (hs : List Nat) (block : List Nat) : List Nat :=
  let w := schedule block 48
  let r0 : Regs := ⟨hs.getD 0 0, hs.getD 1 0, hs.getD 2 0, hs.getD 3 0,
                    hs.getD 4 0, hs.getD 5 0, hs.getD 6 0, hs.getD 7 0⟩
  let r := (K.zip w).foldl roundStep r0
  [(hs.getD 0 0 + r.a) % M32, (hs.getD 1 0 + r.b) % M32, (hs.getD 2 0 + r.c) % M32,
   (hs.getD 3 0 + r.d) % M32, (hs.getD 4 0 + r.e) % M32, (hs.getD 5 0 + r.f) % M32,
   (hs.getD 6 0 + r.g) % M32, (hs.getD 7 0 + r.h) % M32]

/-- SHA-256 digest of a byte message, read as the 256-bit natural number
`int(hexdigest, 16)`. -/
def sha256Nat (msg : List Nat) : Nat :=
  let hs := (chunks16 (toWords (pad msg))).foldl compress H0
  hs.foldl (fun acc h => acc * M32 + h) 0

/-- ASCII bytes of a string; models `str(input).encode()` once the caller
supplies the canonical decimal string of the key. -/
def strBytes (s : String) : List Nat := s.data.map Char.toNat

end Sha

/-- Half-to-even integer rounding, the semantics of the builtin `round`
used at `round(..., round_to)` in lib/predictable_jitter.py. -/
def roundHalfEven (x : ℚ) : ℤ :=
  let f := ⌊x⌋
  let r := x - f
  if r < 1 / 2 then f
  else if 1 / 2 < r then f + 1
  else if f % 2 = 0 then f else f + 1

/-- Python `round(x, k)` for nonnegative `k`: half-to-even at `k` decimal
digits. -/
def pyRound (x : ℚ) (k : Nat) : ℚ := (roundHalfEven (x * 10 ^ k) : ℚ) / 10 ^ k

/-- Embeds lib/predictable_jitter.py, `predictable_jitter`. The `input`
argument stands for `str(input)`, the canonical decimal string of the
Python float key (for example str(30.0) = "30.0"). The source defaults
are `jitter_range = 10.0`, `round_to = 2`. -/
def predictable_jitter (input : String) (jitter_range : ℚ) (round_to : Nat) : ℚ :=
  let normalized_jitter : ℤ := (Sha.sha256Nat (Sha.strBytes input) : ℤ) % (100 * 2 + 1) - 100
  pyRound ((normalized_jitter : ℚ) * jitter_range / 100) round_to

/-! ## lib/series_util.py -/

/-- Embeds lib/series_util.py, `interpolate_steps`. The Python function
returns `[left if left is not None else right] * steps` when an anchor is
missing (a list that may hold None), and the strict linear interpolation
otherwise; elements are wrapped in Option because the results are spliced
back into the optional-valued list. -/
def interpolate_steps (left right : Option ℚ) (steps : Nat) : List (Option ℚ) :=
  match left, right with
  | none, none => List.replicate steps none
  | some l, none => List.replicate steps (some l)
  | none, some r => List.replicate steps (some r)
  | some l, some r =>
      (List.range steps).map fun i : Nat => some (l + (r - l) / ((steps : ℚ) + 1) * ((i : ℚ) + 1))

/-- Embeds the scanning while-loop of lib/series_util.py, `interpolate`.
The loop advances an index past known values and, at each run of missing
values, scans ahead to the next known value and splices in
`interpolate_steps left right steps`. Here the same single pass carries
the value of the last known element (`left`, None before the first known
element, exactly as `points_copy[i-1] if i > 0 else None`) and the length
of the current run of missing values (`gap`, the `j - i` of the source);
reaching a known value or the end of the list emits the spliced run. -/
def interpGo (s : Option ℚ) (gap : Nat) : List (Option ℚ) → List (Option ℚ)
  | [] => interpolate_steps s none gap
  | some v :: rest => interpolate_steps s (some v) gap ++ (some v :: interpGo (some v) 0 rest)
  | none :: rest => interpGo s (gap + 1) rest

/-- Embeds lib/series_util.py, `interpolate`. -/
def interpolate (points : List (Option ℚ)) : List (Option ℚ) := interpGo none 0 points

/-! Specification-side description of interpolation, written from the
words of the claim: positions of known values are unchanged; a missing
position is filled from the nearest known value on each side — the two
anchors of its maximal missing run — by strict linear interpolation, by
constant extension when only one anchor exists, and stays missing when
no anchor exists. -/

/-- Position (0-based) and value of the first known element of a list. -/
def firstKnown : List (Option ℚ) → Option (Nat × ℚ)
  | [] => none
  | some v :: _ => some (0, v)
  | none :: t => (firstKnown t).map fun p => (p.1 + 1, p.2)

/-- Distance (≥ 1) and value of the nearest known element strictly before
position `k`. -/
def nearestLeft (ps : List (Option ℚ)) (k : Nat) : Option (Nat × ℚ) :=
  (firstKnown (ps.take k).reverse).map fun p => (p.1 + 1, p.2)

/-- Distance (≥ 1) and value of the nearest known element strictly after
position `k`. -/
def nearestRight (ps : List (Option ℚ)) (k : Nat) : Option (Nat × ℚ) :=
  (firstKnown (ps.drop (k + 1))).map fun p => (p.1 + 1, p.2)

/-- Fill value of a missing position from its two nearest anchors. With
both anchors, at distance dl from the left anchor l and dr from the
right anchor r, the run has steps + 1 = dl + dr, so the claim formula
left + i * (right - left) / (steps + 1) at position i = dl gives
l + dl * (r - l) / (dl + dr). With one anchor the anchor value extends
constantly; with none the position stays missing. -/
def gapFill : Option (Nat × ℚ) → Option (Nat × ℚ) → Option ℚ
  | some (dl, l), some (dr, r) => some (l + (dl : ℚ) * (r - l) / ((dl : ℚ) + (dr : ℚ)))
  | some (_, l), none => some l
  | none, some (_, r) => some r
  | none, none => none

/-- The interpolation result as described by the specification. -/
def interpSpec (ps : List (Option ℚ)) : List (Option ℚ) :=
  (List.range ps.length).map fun k =>
    match ps[k]? with
    | some (some v) => some v
    | _ => gapFill (nearestLeft ps k) (nearestRight ps k)

/-! ### Basic lemmas for the interpolation development -/

lemma interpolate_steps_length (left right : Option ℚ) (steps : Nat) :
    (interpolate_steps left right steps).length = steps := by
  unfold interpolate_steps
  cases left <;> cases right <;>
    simp only [List.length_replicate, List.length_map, List.length_range]

lemma interpGo_length (rest : List (Option ℚ)) :
    ∀ (s : Option ℚ) (gap : Nat), (interpGo s gap rest).length = gap + rest.length := by
  induction rest with
  | nil => intro s gap; simp [interpGo, interpolate_steps_length]
  | cons hd tl ih =>
      intro s gap
      cases hd with
      | none =>
          rw [interpGo, ih]
          simp only [List.length_cons]
          omega
      | some v =>
          rw [interpGo]
          simp only [List.length_append, interpolate_steps_length, List.length_cons, ih]
          omega

lemma interpolate_length (ps : List (Option ℚ)) : (interpolate ps).length = ps.length := by
  simp [interpolate, interpGo_length]

lemma interpSpec_length (ps : List (Option ℚ)) : (interpSpec ps).length = ps.length := by
  simp [interpSpec]

lemma firstKnown_append_some {A : List (Option ℚ)} {p : Nat × ℚ}
    (h : firstKnown A = some p) (B : List (Option ℚ)) : firstKnown (A ++ B) = some p := by
  induction A generalizing p with
  | nil => simp [firstKnown] at h
  | cons hd tl ih =>
      cases hd with
      | some v => simp [firstKnown] at h ⊢; exact h
      | none =>
          simp only [firstKnown, Option.map_eq_some'] at h
          obtain ⟨q, hq, rfl⟩ := h
          simp only [List.cons_append, firstKnown, List.append_eq, ih hq, Option.map_some']

lemma firstKnown_append_none {A : List (Option ℚ)}
    (h : firstKnown A = none) (B : List (Option ℚ)) :
    firstKnown (A ++ B) = (firstKnown B).map fun q => (q.1 + A.length, q.2) := by
  induction A with
  | nil => simp [firstKnown]
  | cons hd tl ih =>
      cases hd with
      | some v => simp [firstKnown] at h
      | none =>
          simp only [firstKnown, Option.map_eq_none'] at h
          simp only [List.cons_append, firstKnown, List.append_eq, ih h, Option.map_map,
            List.length_cons]
          cases firstKnown B with
          | none => rfl
          | some q =>
              simp only [Option.map_some', Function.comp_apply, Option.some.injEq,
                Prod.mk.injEq, and_true]
              omega

lemma firstKnown_replicate_none (n : Nat) :
    firstKnown (List.replicate n none) = none := by
  induction n with
  | zero => rfl
  | succ m ih => simp [List.replicate_succ, firstKnown, ih]

lemma firstKnown_eq_none_of_all_none {A : List (Option ℚ)}
    (h : ∀ x ∈ A, x = none) : firstKnown A = none := by
  induction A with
  | nil => rfl
  | cons hd tl ih =>
      have hhd := h hd (by simp)
      subst hhd
      simp [firstKnown, ih fun x hx => h x (by simp [hx])]

lemma firstKnown_mem {A : List (Option ℚ)} {d : Nat} {v : ℚ}
    (h : firstKnown A = some (d, v)) : some v ∈ A := by
  induction A generalizing d with
  | nil => simp [firstKnown] at h
  | cons hd tl ih =>
      cases hd with
      | some w => simp [firstKnown] at h; simp [h.2]
      | none =>
          simp only [firstKnown, Option.map_eq_some'] at h
          obtain ⟨q, hq, he⟩ := h
          have : q.2 = v := congrArg Prod.snd he
          subst this
          exact List.mem_cons_of_mem _ (ih (d := q.1) (by simpa using hq))

lemma take_append_add (l₁ l₂ : List (Option ℚ)) (n : Nat) :
    (l₁ ++ l₂).take (l₁.length + n) = l₁ ++ l₂.take n := by
  induction l₁ with
  | nil => simp
  | cons hd tl ih => simp [List.take, Nat.succ_add, ih]

lemma drop_append_add (l₁ l₂ : List (Option ℚ)) (n : Nat) :
    (l₁ ++ l₂).drop (l₁.length + n) = l₂.drop n := by
  induction l₁ with
  | nil => simp
  | cons hd tl ih => simp [List.drop, Nat.succ_add, ih]

lemma getElem?_append_add (l₁ l₂ : List (Option ℚ)) (n : Nat) :
    (l₁ ++ l₂)[l₁.length + n]? = l₂[n]? := by
  rw [List.getElem?_append_right (by omega)]
  congr 1
  omega

lemma interpSpec_get (ps : List (Option ℚ)) (k : Nat) (h : k < ps.length) :
    (interpSpec ps)[k]? = some (match ps[k]? with
      | some (some v) => some v
      | _ => gapFill (nearestLeft ps k) (nearestRight ps k)) := by
  simp only [interpSpec, List.getElem?_map, List.getElem?_range h, Option.map_some']
  rfl

/-- Shape invariant carried through the interpolation scan: the consumed
prefix before the current run of missing values is empty with no last
known value, or ends with the last known value. -/
def ScanInv (pre : List (Option ℚ)) (s : Option ℚ) : Prop :=
  (pre = [] ∧ s = none) ∨ (∃ pre0 l, s = some l ∧ pre = pre0 ++ [some l])

lemma nearestLeft_gap (pre tail : List (Option ℚ)) (gap k : Nat) (s : Option ℚ)
    (hpre : ScanInv pre s) (hk : k ≤ gap) :
    nearestLeft (pre ++ (List.replicate gap none ++ tail)) (pre.length + k) =
      s.map fun l => (k + 1, l) := by
  unfold nearestLeft
  rw [take_append_add, List.take_append_of_le_length (by simp [hk]), List.take_replicate,
    List.reverse_append, List.reverse_replicate]
  have hmin : k ⊓ gap = k := by omega
  rw [hmin, firstKnown_append_none (firstKnown_replicate_none k)]
  rcases hpre with ⟨hp, hs⟩ | ⟨pre0, l, hs, hp⟩
  · subst hp; subst hs; simp [firstKnown]
  · subst hs; subst hp
    rw [List.reverse_append]
    simp [firstKnown]

lemma nearestRight_gap (pre tail : List (Option ℚ)) (gap k : Nat) (hk : k < gap) :
    nearestRight (pre ++ (List.replicate gap none ++ tail)) (pre.length + k) =
      (firstKnown tail).map fun q => (q.1 + (gap - k), q.2) := by
  unfold nearestRight
  have h1 : pre.length + k + 1 = pre.length + (k + 1) := by omega
  rw [h1, drop_append_add, List.drop_append_of_le_length (by simp; omega),
    List.drop_replicate, firstKnown_append_none (firstKnown_replicate_none _)]
  cases hft : firstKnown tail with
  | none => rfl
  | some q =>
      simp only [Option.map_some', Option.some.injEq, Prod.mk.injEq, and_true,
        List.length_replicate]
      omega

lemma getElem?_gap (pre tail : List (Option ℚ)) (gap k : Nat) (hk : k < gap) :
    (pre ++ (List.replicate gap none ++ tail))[pre.length + k]? = some none := by
  rw [getElem?_append_add, List.getElem?_append]
  simp [List.getElem?_replicate, hk]

lemma length_gap (pre tail : List (Option ℚ)) (gap k : Nat) (hk : k < gap) :
    pre.length + k < (pre ++ (List.replicate gap none ++ tail)).length := by
  simp
  omega

lemma interpGo_spec :
    ∀ (rest pre : List (Option ℚ)) (gap : Nat) (s : Option ℚ), ScanInv pre s →
      ∀ k, (interpGo s gap rest)[k]? =
        (interpSpec (pre ++ (List.replicate gap none ++ rest)))[pre.length + k]? := by
  intro rest
  induction rest with
  | nil =>
      intro pre gap s hinv k
      rw [interpGo]
      by_cases hk : k < gap
      · have hlen : pre.length + k < (pre ++ (List.replicate gap none ++ [])).length :=
          length_gap pre [] gap k hk
        rw [interpSpec_get _ _ hlen, getElem?_gap pre [] gap k hk,
          nearestLeft_gap pre [] gap k s hinv hk.le, nearestRight_gap pre [] gap k hk]
        rcases hinv with ⟨hp, hs⟩ | ⟨pre0, l, hs, hp⟩
        · subst hs
          simp [interpolate_steps, List.getElem?_replicate, hk, firstKnown, gapFill]
        · subst hs
          simp [interpolate_steps, List.getElem?_replicate, hk, firstKnown, gapFill]
      · rw [List.getElem?_eq_none (by rw [interpolate_steps_length]; omega),
          List.getElem?_eq_none (by simp [interpSpec_length]; omega)]
  | cons hd tl ih =>
      intro pre gap s hinv k
      cases hd with
      | none =>
          rw [interpGo]
          have heq : List.replicate (gap + 1) (none : Option ℚ) ++ tl =
              List.replicate gap none ++ (none :: tl) := by
            rw [List.replicate_succ', List.append_assoc]
            rfl
          have := ih pre (gap + 1) s hinv k
          rw [heq] at this
          exact this
      | some v =>
          rw [interpGo]
          have hlenA : (interpolate_steps s (some v) gap).length = gap :=
            interpolate_steps_length s (some v) gap
          rcases Nat.lt_trichotomy k gap with hk | hk | hk
          · -- inside the run of missing values
            rw [List.getElem?_append, hlenA, if_pos hk]
            have hlen : pre.length + k <
                (pre ++ (List.replicate gap none ++ (some v :: tl))).length :=
              length_gap pre (some v :: tl) gap k hk
            rw [interpSpec_get _ _ hlen, getElem?_gap pre (some v :: tl) gap k hk,
              nearestLeft_gap pre (some v :: tl) gap k s hinv hk.le,
              nearestRight_gap pre (some v :: tl) gap k hk]
            rcases hinv with ⟨hp, hs⟩ | ⟨pre0, l, hs, hp⟩
            · subst hs
              simp [interpolate_steps, List.getElem?_replicate, hk, firstKnown, gapFill]
            · subst hs
              simp only [interpolate_steps, List.getElem?_map, List.getElem?_range hk,
                Option.map_some', firstKnown, gapFill]
              congr 2
              push_cast [Nat.cast_sub hk.le]
              have hgk : ((k : ℚ) + 1 + ((gap : ℚ) - (k : ℚ))) = (gap : ℚ) + 1 := by ring
              have hne : ((gap : ℚ) + 1) ≠ 0 := by positivity
              have hne2 : ((k : ℚ) + 1 + ((gap : ℚ) - (k : ℚ))) ≠ 0 := by
                rw [hgk]
                positivity
              field_simp
              ring
          · -- the known value that closes the run
            subst hk
            rw [List.getElem?_append, hlenA, if_neg (by omega)]
            have h0 : k - k = 0 := by omega
            rw [h0]
            have hfull : (pre ++ (List.replicate k none ++ (some v :: tl)))[pre.length + k]? =
                some (some v) := by
              rw [getElem?_append_add, List.getElem?_append_right (by simp), List.length_replicate]
              simp
            have hlen : pre.length + k <
                (pre ++ (List.replicate k none ++ (some v :: tl))).length := by
              simp only [List.length_append, List.length_replicate, List.length_cons]
              omega
            rw [interpSpec_get _ _ hlen, hfull]
            simp
          · -- past the run: the tail, via the induction hypothesis
            obtain ⟨j, rfl⟩ : ∃ j, k = gap + 1 + j := ⟨k - gap - 1, by omega⟩
            rw [List.getElem?_append, hlenA, if_neg (by omega)]
            have hidx : gap + 1 + j - gap = 1 + j := by omega
            rw [hidx]
            have hcons : (some v :: interpGo (some v) 0 tl)[1 + j]? =
                (interpGo (some v) 0 tl)[j]? := by
              rw [Nat.add_comm 1 j, List.getElem?_cons_succ]
            rw [hcons]
            have hinv2 : ScanInv (pre ++ (List.replicate gap none ++ [some v])) (some v) :=
              Or.inr ⟨pre ++ List.replicate gap none, v, rfl, by rw [List.append_assoc]⟩
            have IH := ih (pre ++ (List.replicate gap none ++ [some v])) 0 (some v) hinv2 j
            simp only [List.replicate_zero, List.nil_append] at IH
            have hl1 : (pre ++ (List.replicate gap none ++ [some v])) ++ tl =
                pre ++ (List.replicate gap none ++ (some v :: tl)) := by
              simp [List.append_assoc]
            rw [hl1] at IH
            have hidx2 : (pre ++ (List.replicate gap none ++ [some v])).length + j =
                pre.length + (gap + 1 + j) := by
              simp only [List.length_append, List.length_replicate, List.length_cons,
                List.length_nil]
              omega
            rw [hidx2] at IH
            exact IH

lemma interpolate_eq_interpSpec (ps : List (Option ℚ)) : interpolate ps = interpSpec ps := by
  apply List.ext_getElem?
  intro k
  have h := interpGo_spec ps [] 0 none (Or.inl ⟨rfl, rfl⟩) k
  simpa [interpolate] using h

lemma interpSpec_all_none {ps : List (Option ℚ)} (h : ∀ x ∈ ps, x = none) :
    interpSpec ps = ps := by
  apply List.ext_getElem?
  intro k
  by_cases hk : k < ps.length
  · have hpk : ps[k]? = some none := by
      rw [List.getElem?_eq_getElem hk]
      exact congrArg some (h _ (List.getElem_mem hk))
    rw [interpSpec_get _ _ hk, hpk]
    have hl : nearestLeft ps k = none := by
      unfold nearestLeft
      rw [firstKnown_eq_none_of_all_none fun x hx =>
        h x (List.take_subset k ps (List.mem_reverse.mp hx))]
      rfl
    have hr : nearestRight ps k = none := by
      unfold nearestRight
      rw [firstKnown_eq_none_of_all_none fun x hx => h x (List.drop_subset (k + 1) ps hx)]
      rfl
    rw [hl, hr]
    rfl
  · rw [List.getElem?_eq_none (by rw [interpSpec_length]; omega),
      List.getElem?_eq_none (by omega)]

lemma nearestLeft_mem {ps : List (Option ℚ)} {k dl : Nat} {l : ℚ}
    (h : nearestLeft ps k = some (dl, l)) : some l ∈ ps := by
  unfold nearestLeft at h
  rw [Option.map_eq_some'] at h
  obtain ⟨⟨d, x⟩, hq, he⟩ := h
  have h2 : x = l := congrArg Prod.snd he
  subst h2
  exact List.take_subset k ps (List.mem_reverse.mp (firstKnown_mem hq))

lemma nearestRight_mem {ps : List (Option ℚ)} {k dr : Nat} {r : ℚ}
    (h : nearestRight ps k = some (dr, r)) : some r ∈ ps := by
  unfold nearestRight at h
  rw [Option.map_eq_some'] at h
  obtain ⟨⟨d, x⟩, hq, he⟩ := h
  have h2 : x = r := congrArg Prod.snd he
  subst h2
  exact List.drop_subset (k + 1) ps (firstKnown_mem hq)

lemma nearestLeft_pos {ps : List (Option ℚ)} {k dl : Nat} {l : ℚ}
    (h : nearestLeft ps k = some (dl, l)) : 1 ≤ dl := by
  unfold nearestLeft at h
  rw [Option.map_eq_some'] at h
  obtain ⟨q, _, he⟩ := h
  have h1 : q.1 + 1 = dl := congrArg Prod.fst he
  omega

lemma nearestRight_pos {ps : List (Option ℚ)} {k dr : Nat} {r : ℚ}
    (h : nearestRight ps k = some (dr, r)) : 1 ≤ dr := by
  unfold nearestRight at h
  rw [Option.map_eq_some'] at h
  obtain ⟨q, _, he⟩ := h
  have h1 : q.1 + 1 = dr := congrArg Prod.fst he
  omega

lemma gapFill_between {dl dr : Nat} {l r w : ℚ} (hdl : 1 ≤ dl) (hdr : 1 ≤ dr)
    (h : gapFill (some (dl, l)) (some (dr, r)) = some w) :
    min l r ≤ w ∧ w ≤ max l r := by
  simp only [gapFill, Option.some.injEq] at h
  subst h
  have hdl1 : (1 : ℚ) ≤ (dl : ℚ) := by exact_mod_cast hdl
  have hdr1 : (1 : ℚ) ≤ (dr : ℚ) := by exact_mod_cast hdr
  have hden : 0 < (dl : ℚ) + (dr : ℚ) := by linarith
  set t : ℚ := (dl : ℚ) / ((dl : ℚ) + (dr : ℚ)) with ht
  have ht0 : 0 ≤ t := by positivity
  have ht1 : t ≤ 1 := by
    rw [ht, div_le_one hden]
    linarith
  have hwt : l + (dl : ℚ) * (r - l) / ((dl : ℚ) + (dr : ℚ)) = l + t * (r - l) := by
    rw [ht]
    ring
  rw [hwt]
  rcases le_total l r with hlr | hlr
  · rw [min_eq_left hlr, max_eq_right hlr]
    constructor
    · nlinarith
    · nlinarith
  · rw [min_eq_right hlr, max_eq_left hlr]
    constructor
    · nlinarith
    · nlinarith

/-! ## lib/types.py and the structured interpolation variants -/

/-- Embeds lib/types.py, `TimeSeriesPoint` (timestamp, value). The
timestamp is a datetime; only its identity matters here, so it is
modelled as an integer. The value field holds a float or None. -/
structure TimeSeriesPoint where
  timestamp : Int
  value : Option ℚ
deriving DecidableEq

/-- Embeds lib/series_util.py, `interpolate_any`: deep-copies the list,
reads the interpolated field with `getter`, interpolates, and writes each
result back with `setter` (zip pairs the copies with the results). The
deep copy plus in-place setattr of the copy is modelled functionally:
`setter` returns the updated element. -/
def interpolate_any {α : Type} (points : List α) (getter : α → Option ℚ)
    (setter : α → Option ℚ → α) : List α :=
  (points.zip (interpolate (points.map getter))).map fun pv => setter pv.1 pv.2

/-- Embeds lib/series_util.py, `interpolate_time_series`. -/
def interpolate_time_series (points : List TimeSeriesPoint) : List TimeSeriesPoint :=
  interpolate_any points (fun p => p.value) (fun p v => { p with value := v })

/-! ## api/simulators/solar.py -/

/-- Embeds api/simulators/solar.py, `SolarSimulator.__init__` fields. -/
structure SolarSimulator where
  installed_capacity_kw : ℚ
  performance_ratio : ℚ
  temp_coefficient : ℚ
deriving DecidableEq

/-- Embeds `SolarSimulator._cell_temperature`:
ambient + _NOCT_DELTA_T * (ghi / _G_STC) with delta 25 and G_STC 1000. -/
def SolarSimulator.cell_temperature (ambient_temp ghi : ℚ) : ℚ :=
  ambient_temp + 25 * (ghi / 1000)

/-- Embeds `SolarSimulator._temp_derating`:
1 + temp_coefficient * (t_cell - 25). -/
def SolarSimulator.temp_derating (s : SolarSimulator) (t_cell : ℚ) : ℚ :=
  1 + s.temp_coefficient * (t_cell - 25)

/-- Embeds `SolarSimulator.simulate`. The ValueError on a length mismatch
becomes an error result; the per-sample loop with `temperatures[i]`
indexing becomes a map over the zipped lists (same pairing, since the
lengths agree in the non-error branch). -/
def SolarSimulator.simulate (s : SolarSimulator) (irradiance : List ℚ)
    (temperatures : Option (List ℚ)) : Except String (List ℚ) :=
  match temperatures with
  | some ts =>
      if ts.length ≠ irradiance.length then
        .error "temperatures length must match irradiance length"
      else
        .ok ((irradiance.zip ts).map fun gt =>
          let ghi := max gt.1 0
          let p_dc := s.installed_capacity_kw * (ghi / 1000)
          let f_temp := s.temp_derating (SolarSimulator.cell_temperature gt.2 ghi)
          max (p_dc * f_temp * s.performance_ratio) 0)
  | none =>
      .ok (irradiance.map fun g =>
        let ghi := max g 0
        let p_dc := s.installed_capacity_kw * (ghi / 1000)
        let f_temp := s.temp_derating 25
        max (p_dc * f_temp * s.performance_ratio) 0)

/-- Embeds `SolarSimulator.capacity_factor`: raises on empty irradiance,
otherwise `sum(series) / (installed_capacity_kw * len(series))`, where
`series = simulate(irradiance, temperatures)` (whose own ValueError
propagates). -/
def SolarSimulator.capacity_factor (s : SolarSimulator) (irradiance : List ℚ)
    (temperatures : Option (List ℚ)) : Except String ℚ :=
  if irradiance.isEmpty then .error "irradiance must not be empty"
  else
    (s.simulate irradiance temperatures).map fun series =>
      series.sum / (s.installed_capacity_kw * (series.length : ℚ))

/-! ## api/simulators/datacenter.py -/

/-- Embeds api/simulators/datacenter.py, `DatacenterSimulator` fields
(source defaults: utilisation 0.50, pue_base 1.40, pue_temp_coeff 0.01,
t_setpoint 20.0, tau_cooling_hours 1.0, tau_mass_hours 6.0, alpha 0.70,
interval_hours 0.50). -/
structure DatacenterSimulator where
  it_load_kw : ℚ
  utilisation : ℚ
  pue_base : ℚ
  pue_temp_coeff : ℚ
  t_setpoint : ℚ
  tau_cooling_hours : ℚ
  tau_mass_hours : ℚ
  alpha : ℚ
  interval_hours : ℚ
deriving DecidableEq

/-- The loop body of `DatacenterSimulator.simulate`: sequential recursion
carrying the two lag temperatures, emitting one load per sample. -/
def DatacenterSimulator.simGo (s : DatacenterSimulator) (kShort kLong : ℚ) :
    ℚ → ℚ → List ℚ → List ℚ
  | _, _, [] => []
  | tShort, tLong, t_amb :: rest =>
      let tShort1 := tShort + kShort * (t_amb - tShort)
      let tLong1 := tLong + kLong * (t_amb - tLong)
      let t_eff := s.alpha * tShort1 + (1 - s.alpha) * tLong1
      let pue := s.pue_base + s.pue_temp_coeff * max 0 (t_eff - s.t_setpoint)
      s.it_load_kw * s.utilisation * pue ::
        DatacenterSimulator.simGo s kShort kLong tShort1 tLong1 rest

/-- Embeds `DatacenterSimulator.simulate`: empty input returns empty;
both lag states start at `t_initial` when given, else the first sample;
the per-step gains are `min(interval_hours / tau, 1.0)`. -/
def DatacenterSimulator.simulate (s : DatacenterSimulator) (temperatures : List ℚ)
    (t_initial : Option ℚ) : List ℚ :=
  match temperatures with
  | [] => []
  | t :: _ =>
      let t0 := t_initial.getD t
      DatacenterSimulator.simGo s (min (s.interval_hours / s.tau_cooling_hours) 1)
        (min (s.interval_hours / s.tau_mass_hours) 1) t0 t0 temperatures

/-- Specification-side exponential-moving-average lag sequence, written
from the claim: T += k * (T_amb - T), emitted after each update. -/
def lagSeq (k : ℚ) : ℚ → List ℚ → List ℚ
  | _, [] => []
  | t0, t_amb :: rest =>
      let t1 := t0 + k * (t_amb - t0)
      t1 :: lagSeq k t1 rest

/-! ## api/simulators/weather.py (with lib/time_util.py) -/

/-- Embeds lib/types.py, `TimeSlice`: the literals "hourly", "30m",
"15m". -/
inductive TimeSlice where
  | hourly
  | min30
  | min15
deriving DecidableEq

/-- Embeds lib/time_util.py, `interval_hours`:
INTERVAL_MINUTES[time_slice] / MINUTES_IN_HOUR. (api/simulators/weather.py
imports this helper as `get_interval_hours`; lib/time_util.py defines it
under the name `interval_hours`.) -/
def interval_hours : TimeSlice → ℚ
  | .hourly => 60 / 60
  | .min30 => 30 / 60
  | .min15 => 15 / 60

/-- Embeds lib/types.py, `DailyProfile`. -/
structure DailyProfile where
  morning : ℚ
  afternoon : ℚ
  evening : ℚ
  night : ℚ
  t_min : Option ℚ := none
  t_max : Option ℚ := none
deriving DecidableEq

/-- Embeds api/simulators/weather.py, `WeatherSimulator` fields. -/
structure WeatherSimulator where
  interval : TimeSlice
  clamp : Bool
deriving DecidableEq

/-- Embeds `WeatherSimulator._fit`: the closed-form least-squares
sinusoid coefficients (a, b, c). -/
def WeatherSimulator.fit (p : DailyProfile) : ℚ × ℚ × ℚ :=
  ((p.night + p.morning + p.afternoon + p.evening) / 4,
   (p.night - p.afternoon) / 2,
   (p.morning - p.evening) / 2)

/-- Embeds `WeatherSimulator.simulate_day`. The transcendental
evaluation `math.cos(2*pi*t/24)` and `math.sin(2*pi*t/24)` of
`_evaluate` cannot be computed exactly; it is abstracted as the function
parameters `cosf` and `sinf`, applied to `t` (hours since midnight):
`cosf t` stands for cos(2*pi*t/24) and `sinf t` for sin(2*pi*t/24).
`steps = round(24.0 / interval_hours)`. -/
def WeatherSimulator.simulate_day (w : WeatherSimulator) (cosf sinf : ℚ → ℚ)
    (p : DailyProfile) : List ℚ :=
  let abc := WeatherSimulator.fit p
  let steps := (roundHalfEven (24 / interval_hours w.interval)).toNat
  (List.range steps).map fun i : Nat =>
    let t : ℚ := (i : ℚ) * interval_hours w.interval
    let temp := abc.1 + abc.2.1 * cosf t + abc.2.2 * sinf t
    let temp1 := if w.clamp then
        match p.t_min with
        | some m => max temp m
        | none => temp
      else temp
    if w.clamp then
      match p.t_max with
      | some m => min temp1 m
      | none => temp1
    else temp1

/-- Embeds `WeatherSimulator.simulate`: raises on an empty profile list,
else extends an accumulator with one per-day series per profile in input
order. -/
def WeatherSimulator.simulate (w : WeatherSimulator) (cosf sinf : ℚ → ℚ)
    (profiles : List DailyProfile) : Except String (List ℚ) :=
  if profiles.isEmpty then .error "profiles must not be empty"
  else .ok (profiles.foldl (fun acc p => acc ++ w.simulate_day cosf sinf p) [])

/-! ## etl/pearson.py

Timestamps are modelled in 15-minute units: midnight of the target day is
0, so the 96 output slots are 0..95 and the trailing 24-hour window
ending at slot ts (inclusive) is [ts - 95, ts]. Series fetched from the
store are association lists from timestamp to value (the dict built by
the source from rows with distinct timestamps). -/

/-- Embeds etl/pearson.py, `_pearson`, up to the final `num /
math.sqrt(den_sq)`: the result is represented by the pair (num, den_sq)
with den_sq > 0, since the square root is irrational and only definedness
and sign structure matter to the claims. None is returned exactly where
the source returns None. -/
def pearsonND (xs ys : List ℚ) : Option (ℚ × ℚ) :=
  let n := xs.length
  if n < 2 then none
  else
    let sum_x := xs.sum
    let sum_y := ys.sum
    let sum_xy := ((xs.zip ys).map fun p => p.1 * p.2).sum
    let sum_x2 := (xs.map fun x => x * x).sum
    let sum_y2 := (ys.map fun y => y * y).sum
    let num := (n : ℚ) * sum_xy - sum_x * sum_y
    let den_sq := ((n : ℚ) * sum_x2 - sum_x ^ 2) * ((n : ℚ) * sum_y2 - sum_y ^ 2)
    if den_sq ≤ 0 then none else some (num, den_sq)

/-- One output row of the correlation ETL (customer id omitted: the model
is per customer). -/
structure CorrelationRow where
  timestamp : Int
  solar_irradiance_vs_production : Option (ℚ × ℚ)
  temperature_vs_consumption : Option (ℚ × ℚ)
deriving DecidableEq

/-- The matched pairs for one output timestamp: values at the grid
timestamps of the window present in both series, in window order (the
source list comprehension over window_ts filtered on membership in both
dicts). -/
def windowPairs (a b : List (Int × ℚ)) (ts : Int) : List (ℚ × ℚ) :=
  (((List.range 96).map fun i : Nat => ts - 95 + (i : Int)).filterMap fun t =>
    match a.lookup t, b.lookup t with
    | some x, some y => some (x, y)
    | _, _ => none)

/-- Embeds the per-customer body of etl/pearson.py, `run`: skip the
customer (no rows) when both the irradiance and the weather dicts are
empty, else emit one row per output timestamp 0..95, each holding the two
Pearson results over the matched pairs of the trailing window. -/
def pearsonRun (irr prod temp cons : List (Int × ℚ)) : List CorrelationRow :=
  if irr.isEmpty && temp.isEmpty then []
  else
    (List.range 96).map fun k : Nat =>
      let ts : Int := (k : Int)
      let ip := windowPairs irr prod ts
      let tc := windowPairs temp cons ts
      ⟨ts, pearsonND (ip.map Prod.fst) (ip.map Prod.snd),
           pearsonND (tc.map Prod.fst) (tc.map Prod.snd)⟩

/-- A list is constant: any two members are equal (zero variance). -/
def AllEq (l : List ℚ) : Prop := ∀ a ∈ l, ∀ b ∈ l, a = b

/-! ## etl/orchestration.py and api/main.py -/

/-- The five fallible ETL stages (weather and temperature are the two
names of the independent source-fetch stage in the two chain variants). -/
inductive Stage where
  | irradiance
  | weather
  | temperature
  | consumption
  | production
  | pearson
deriving DecidableEq

/-- Embeds etl/orchestration.py, `run_etl_chain`, as its trace: the list
of stages that run, in order. A stage that raises is caught, logged, and
the function returns, so nothing after it runs. The environment `fails`
says which stages would raise for this date. -/
def run_etl_chain (fails : Stage → Bool) : List Stage :=
  .irradiance ::
    (if fails .irradiance then [] else
      .weather ::
        (if fails .weather then [] else
          .consumption ::
            (if fails .consumption then [] else
              .production ::
                (if fails .production then [] else [.pearson]))))

/-- Embeds api/main.py, `_run_etl_chain` (the variant invoked by the
backfill loop; it runs temperature first, then irradiance), as its
trace. -/
def main_run_etl_chain (fails : Stage → Bool) : List Stage :=
  .temperature ::
    (if fails .temperature then [] else
      .irradiance ::
        (if fails .irradiance then [] else
          .consumption ::
            (if fails .consumption then [] else
              .production ::
                (if fails .production then [] else [.pearson]))))

/-- The order of etl/orchestration.py, `run_etl_chain`. -/
def etlOrder : List Stage := [.irradiance, .weather, .consumption, .production, .pearson]

/-- Embeds api/main.py, `_run_backfill`: nothing when the start date is
after today, else one `_run_etl_chain` invocation per day from start
through today, in order; each invocation catches every stage exception
internally, so the loop always reaches every date. Dates are day numbers;
the trace tags each run stage with its date. -/
def run_backfill (fails : Nat → Stage → Bool) (start today : Nat) : List (Nat × Stage) :=
  if today < start then []
  else ((List.range (today - start + 1)).map fun k =>
         (main_run_etl_chain (fails (start + k))).map fun s => (start + k, s)).flatten

/-! ## Claim theorems -/

/-- Claim C1: for every list of optional floats, interpolate returns a
list of the same length in which each maximal run of missing values,
bounded by a known value immediately before it and a known value
immediately after it, is replaced by left + i * (right - left) /
(steps + 1) for i = 1..steps; a run with only a right anchor is filled
with the right value, a run with only a left anchor with the left value;
an all-missing input is returned all-missing and the empty list maps to
the empty list. The description is captured by `interpSpec`, built from
the nearest known anchors of each missing position. -/
theorem interpolate_matches_linear_spec (ps : List (Option ℚ)) :
    interpolate ps = interpSpec ps ∧
    (interpolate ps).length = ps.length ∧
    ((∀ x ∈ ps, x = none) → interpolate ps = ps) ∧
    interpolate ([] : List (Option ℚ)) = [] := by
  refine ⟨interpolate_eq_interpSpec ps, interpolate_length ps, ?_, rfl⟩
  intro h
  rw [interpolate_eq_interpSpec ps, interpSpec_all_none h]

/-- Witness for C1 at concrete inputs. -/
theorem interpolate_matches_linear_spec_witness :
    interpolate [none, none] = [none, none] ∧
    interpolate [some 0, none, some 4] = interpSpec [some 0, none, some 4] :=
  ⟨(interpolate_matches_linear_spec [none, none]).2.2.1 (by simp),
   (interpolate_matches_linear_spec [some 0, none, some 4]).1⟩

/-- Claim C10: known input positions are returned unchanged; a filled
missing position lies between its two anchoring known values
(inclusive); consequently every known output value lies between two
known input values, hence within [min, max] of the known inputs. -/
theorem interpolate_preserves_knowns_and_bounds (ps : List (Option ℚ)) :
    (∀ (k : Nat) (v : ℚ), ps[k]? = some (some v) → (interpolate ps)[k]? = some (some v)) ∧
    (∀ (k dl dr : Nat) (w l r : ℚ), ps[k]? = some none →
        (interpolate ps)[k]? = some (some w) →
        nearestLeft ps k = some (dl, l) → nearestRight ps k = some (dr, r) →
        min l r ≤ w ∧ w ≤ max l r) ∧
    (∀ (k : Nat) (w : ℚ), (interpolate ps)[k]? = some (some w) →
        ∃ a, some a ∈ ps ∧ a ≤ w ∧ ∃ b, some b ∈ ps ∧ w ≤ b) := by
  refine ⟨?_, ?_, ?_⟩
  · intro k v hk
    have hlt : k < ps.length := by
      by_contra hge
      push_neg at hge
      rw [List.getElem?_eq_none hge] at hk
      cases hk
    rw [interpolate_eq_interpSpec, interpSpec_get _ _ hlt, hk]
  · intro k dl dr w l r hk hw hl hr
    have hlt : k < ps.length := by
      by_contra hge
      push_neg at hge
      rw [List.getElem?_eq_none hge] at hk
      cases hk
    rw [interpolate_eq_interpSpec, interpSpec_get _ _ hlt, hk, hl, hr] at hw
    have hfill : gapFill (some (dl, l)) (some (dr, r)) = some w := by
      simpa using hw
    exact gapFill_between (nearestLeft_pos hl) (nearestRight_pos hr) hfill
  · intro k w hw
    have hlt : k < ps.length := by
      have h1 : k < (interpolate ps).length := by
        by_contra hge
        push_neg at hge
        rw [List.getElem?_eq_none hge] at hw
        cases hw
      rwa [interpolate_length] at h1
    rw [interpolate_eq_interpSpec, interpSpec_get _ _ hlt] at hw
    rcases hpk : ps[k]? with _ | x
    · exact absurd hpk (by simp [List.getElem?_eq_some]; omega)
    rcases x with _ | v
    · -- the position was missing: the fill came from the anchors
      rw [hpk] at hw
      rcases hl : nearestLeft ps k with _ | ⟨dl, l⟩ <;>
        rcases hr : nearestRight ps k with _ | ⟨dr, r⟩ <;> rw [hl, hr] at hw
      · simp [gapFill] at hw
      · have hwr : w = r := by simpa [gapFill] using hw.symm
        subst hwr
        exact ⟨w, nearestRight_mem hr, le_refl w, w, nearestRight_mem hr, le_refl w⟩
      · have hwl : w = l := by simpa [gapFill] using hw.symm
        subst hwl
        exact ⟨w, nearestLeft_mem hl, le_refl w, w, nearestLeft_mem hl, le_refl w⟩
      · have hfill : gapFill (some (dl, l)) (some (dr, r)) = some w := by
          simpa using hw
        have hb := gapFill_between (nearestLeft_pos hl) (nearestRight_pos hr) hfill
        rcases le_total l r with hlr | hlr
        · refine ⟨l, nearestLeft_mem hl, ?_, r, nearestRight_mem hr, ?_⟩
          · calc l = min l r := (min_eq_left hlr).symm
              _ ≤ w := hb.1
          · calc w ≤ max l r := hb.2
              _ = r := max_eq_right hlr
        · refine ⟨r, nearestRight_mem hr, ?_, l, nearestLeft_mem hl, ?_⟩
          · calc r = min l r := (min_eq_right hlr).symm
              _ ≤ w := hb.1
          · calc w ≤ max l r := hb.2
              _ = l := max_eq_left hlr
    · -- the position was known and is returned unchanged
      rw [hpk] at hw
      have hv : v = w := by simpa using hw
      subst hv
      have hmem : some v ∈ ps := List.getElem?_mem hpk
      exact ⟨v, hmem, le_refl v, v, hmem, le_refl v⟩

/-- Witness for C10 at a concrete input. -/
theorem interpolate_preserves_knowns_and_bounds_witness :
    (interpolate [some 0, none, some 4])[0]? = some (some 0) ∧
    (min (0 : ℚ) 4 ≤ 2 ∧ (2 : ℚ) ≤ max 0 4) := by
  have h : interpolate [some 0, none, some 4] = [some 0, some 2, some 4] := by
    norm_num [interpolate, interpGo, interpolate_steps, List.range_succ]
  constructor
  · exact (interpolate_preserves_knowns_and_bounds [some 0, none, some 4]).1 0 0 rfl
  · refine (interpolate_preserves_knowns_and_bounds [some 0, none, some 4]).2.1
      1 1 1 2 0 4 rfl ?_ rfl rfl
    rw [h]
    rfl

lemma getElem?_zip {α β : Type} :
    ∀ (l₁ : List α) (l₂ : List β) (k : Nat),
      (l₁.zip l₂)[k]? = match l₁[k]?, l₂[k]? with
        | some a, some b => some (a, b)
        | _, _ => none := by
  intro l₁
  induction l₁ with
  | nil => intro l₂ k; simp
  | cons a t ih =>
      intro l₂ k
      cases l₂ with
      | nil => simp
      | cons b t2 =>
          cases k with
          | zero => simp [List.zip_cons_cons]
          | succ m => simpa [List.zip_cons_cons] using ih t2 m

lemma map_value_zip_setter :
    ∀ (ps : List TimeSeriesPoint) (vs : List (Option ℚ)), ps.length = vs.length →
      ((ps.zip vs).map fun pv => ({ pv.1 with value := pv.2 } : TimeSeriesPoint)).map
          (fun p => p.value) = vs := by
  intro ps
  induction ps with
  | nil =>
      intro vs h
      cases vs with
      | nil => rfl
      | cons b t => cases h
  | cons a t ih =>
      intro vs h
      cases vs with
      | nil => cases h
      | cons b t2 =>
          simp only [List.zip_cons_cons, List.map_cons, List.cons.injEq]
          exact ⟨by trivial, ih t2 (by simpa using h)⟩

/-- Claim C9: interpolate is a pure function of its input (the source
copies the list before writing, so the list of the caller is untouched; in
this embedding every function is observationally pure and the copy has no
further observable content), and the structured variant
interpolate_time_series returns a new list in which only the value field
changes: it has one output point per input point, every output point
keeps the timestamp of the corresponding input point, and the value
fields are exactly the interpolation of the input value fields. -/
theorem interpolate_time_series_frame (ps : List TimeSeriesPoint) :
    (interpolate_time_series ps).length = ps.length ∧
    (∀ (k : Nat) (p q : TimeSeriesPoint), ps[k]? = some p →
        (interpolate_time_series ps)[k]? = some q → q.timestamp = p.timestamp) ∧
    (interpolate_time_series ps).map (fun p => p.value) =
      interpolate (ps.map fun p => p.value) := by
  have hlen : (interpolate (ps.map fun p => p.value)).length = ps.length := by
    rw [interpolate_length, List.length_map]
  refine ⟨?_, ?_, ?_⟩
  · simp [interpolate_time_series, interpolate_any, List.length_zip, hlen]
  · intro k p q hp hq
    rw [interpolate_time_series, interpolate_any, List.getElem?_map, getElem?_zip, hp] at hq
    rcases hv : (interpolate (ps.map fun p => p.value))[k]? with _ | v <;> rw [hv] at hq
    · cases hq
    · have : ({ p with value := v } : TimeSeriesPoint) = q := by simpa using hq
      rw [← this]
  · rw [interpolate_time_series, interpolate_any]
    exact map_value_zip_setter ps _ (by rw [hlen])

/-- Witness for C9 at a concrete input. -/
theorem interpolate_time_series_frame_witness :
    (interpolate_time_series [⟨5, some 0⟩, ⟨6, none⟩, ⟨7, some 4⟩])[1]?.map
        (fun q => q.timestamp) = some 6 := by
  have h2 : ∃ q, (interpolate_time_series [⟨5, some 0⟩, ⟨6, none⟩, ⟨7, some 4⟩])[1]? = some q := by
    have h1 := (interpolate_time_series_frame [⟨5, some 0⟩, ⟨6, none⟩, ⟨7, some 4⟩]).1
    rcases hq : (interpolate_time_series [⟨5, some 0⟩, ⟨6, none⟩, ⟨7, some 4⟩])[1]? with _ | q
    · rw [List.getElem?_eq_none_iff] at hq
      rw [h1] at hq
      simp at hq
    · exact ⟨q, rfl⟩
  rcases h2 with ⟨q, hq⟩
  rw [hq, Option.map_some']
  rw [(interpolate_time_series_frame [⟨5, some 0⟩, ⟨6, none⟩, ⟨7, some 4⟩]).2.1 1 ⟨6, none⟩ q
    rfl hq]

set_option maxRecDepth 4000

lemma sha_str_24 : Sha.sha256Nat (Sha.strBytes "24.0") % 201 = 200 := by decide

lemma sha_str_30 : Sha.sha256Nat (Sha.strBytes "30.0") % 201 = 111 := by decide

lemma predictable_jitter_eval (key : String) (n : Nat)
    (h : Sha.sha256Nat (Sha.strBytes key) % 201 = n) (r : ℚ) (k : Nat) :
    predictable_jitter key r k = pyRound (((n : ℚ) - 100) * r / 100) k := by
  unfold predictable_jitter
  have h2 : (Sha.sha256Nat (Sha.strBytes key) : ℤ) % (100 * 2 + 1) = (n : ℤ) := by
    omega
  rw [h2]
  push_cast
  ring_nf

lemma roundHalfEven_close (y : ℚ) : |((roundHalfEven y : ℤ) : ℚ) - y| ≤ 1 / 2 := by
  have h1 : ((⌊y⌋ : ℤ) : ℚ) ≤ y := Int.floor_le y
  have h2 : y < ((⌊y⌋ : ℤ) : ℚ) + 1 := Int.lt_floor_add_one y
  unfold roundHalfEven
  dsimp only
  split_ifs with ha hb hc <;> rw [abs_le] <;> push_cast <;> constructor <;> linarith

lemma pyRound_close (x : ℚ) (k : Nat) : |pyRound x k - x| ≤ 1 / (2 * 10 ^ k) := by
  unfold pyRound
  have hp : (0 : ℚ) < 10 ^ k := by positivity
  have hd : ((roundHalfEven (x * 10 ^ k) : ℤ) : ℚ) / 10 ^ k - x =
      (((roundHalfEven (x * 10 ^ k) : ℤ) : ℚ) - x * 10 ^ k) / 10 ^ k := by
    field_simp
    ring
  rw [hd, abs_div, abs_of_pos hp]
  rw [div_le_iff₀ hp]
  have h := roundHalfEven_close (x * 10 ^ k)
  have he : 1 / (2 * 10 ^ k) * 10 ^ k = (1 / 2 : ℚ) := by
    field_simp
    ring
  rw [he]
  exact h

/-- Counterexample for C6: at key "24.0" (the canonical string of the
float 24.0, whose digest reduces to the extreme normalized value 100) and
range 0.006 = 3/500, the code rounds 0.006 up to 0.01, which lies outside
the closed interval [-range, range]. -/
theorem predictable_jitter_range_counterexample :
    predictable_jitter "24.0" (3 / 500) 2 = 1 / 100 ∧
    ¬(predictable_jitter "24.0" (3 / 500) 2 ≤ 3 / 500) := by
  have h : predictable_jitter "24.0" (3 / 500) 2 = 1 / 100 := by
    rw [predictable_jitter_eval "24.0" 200 sha_str_24]
    norm_num [pyRound, roundHalfEven]
  refine ⟨h, ?_⟩
  rw [h]
  norm_num

/-- Amended claim C6: for every key and every nonnegative range,
predictable_jitter is deterministic, returns exactly 0 when the range is
0, and returns a value within the closed interval
[-(range + 0.005), range + 0.005]: the scaled hash value lies in
[-range, range], and the final rounding to two decimals can move it by at
most half an ulp, 0.005 — for ranges that are not two-decimal values the
result can exceed range itself (see the counterexample). -/
theorem predictable_jitter_amended (key : String) (r : ℚ) (hr : 0 ≤ r) :
    predictable_jitter key r 2 = predictable_jitter key r 2 ∧
    predictable_jitter key 0 2 = 0 ∧
    -(r + 1 / 200) ≤ predictable_jitter key r 2 ∧
    predictable_jitter key r 2 ≤ r + 1 / 200 := by
  set n : ℤ := (Sha.sha256Nat (Sha.strBytes key) : ℤ) % (100 * 2 + 1) - 100 with hn
  have hnb : -100 ≤ n ∧ n ≤ 100 := by
    have h0 : 0 ≤ (Sha.sha256Nat (Sha.strBytes key) : ℤ) % (100 * 2 + 1) :=
      Int.emod_nonneg _ (by norm_num)
    have h1 : (Sha.sha256Nat (Sha.strBytes key) : ℤ) % (100 * 2 + 1) < 201 :=
      Int.emod_lt_of_pos _ (by norm_num)
    omega
  have hzero : predictable_jitter key 0 2 = 0 := by
    unfold predictable_jitter
    rw [← hn]
    show pyRound ((n : ℚ) * 0 / 100) 2 = 0
    have hx : ((n : ℚ)) * 0 / 100 = 0 := by ring
    rw [hx]
    norm_num [pyRound, roundHalfEven]
  have hxb : -r ≤ (n : ℚ) * r / 100 ∧ (n : ℚ) * r / 100 ≤ r := by
    have hc1 : ((-100 : ℤ) : ℚ) ≤ (n : ℚ) := by exact_mod_cast hnb.1
    have hc2 : (n : ℚ) ≤ ((100 : ℤ) : ℚ) := by exact_mod_cast hnb.2
    push_cast at hc1 hc2
    constructor <;> nlinarith
  have hclose := pyRound_close ((n : ℚ) * r / 100) 2
  have hpj : predictable_jitter key r 2 = pyRound ((n : ℚ) * r / 100) 2 := by
    unfold predictable_jitter
    rw [← hn]
  rw [abs_le] at hclose
  have hval : (1 : ℚ) / (2 * 10 ^ 2) = 1 / 200 := by norm_num
  rw [hval] at hclose
  exact ⟨rfl, hzero, by rw [hpj]; linarith [hclose.1, hxb.1],
    by rw [hpj]; linarith [hclose.2, hxb.2]⟩

/-- Witness for the amended C6 at a concrete key and range. -/
theorem predictable_jitter_amended_witness :
    (0 : ℚ) ≤ 10 ∧
    (-(10 + 1 / 200 : ℚ) ≤ predictable_jitter "1.0" 10 2 ∧
      predictable_jitter "1.0" 10 2 ≤ 10 + 1 / 200) :=
  ⟨by norm_num, (predictable_jitter_amended "1.0" 10 (by norm_num)).2.2⟩

/-- Claim C2: SolarSimulator.simulate returns one output per input
sample, each equal to max(0, capacity * (max(ghi,0)/1000) *
(1 + temp_coefficient * (T_cell - 25)) * performance_ratio), with
T_cell = T_amb + 25 * (max(ghi,0)/1000) when temperatures are supplied
and T_cell = 25 otherwise; a temperature sequence of different length
fails with a length-mismatch error and produces no output. -/
theorem solar_simulate_spec (s : SolarSimulator) (irradiance : List ℚ) :
    (∀ ts : List ℚ, ts.length ≠ irradiance.length →
        ∃ e, s.simulate irradiance (some ts) = .error e) ∧
    (∀ ts : List ℚ, ts.length = irradiance.length →
        ∃ out, s.simulate irradiance (some ts) = .ok out ∧
          out.length = irradiance.length ∧
          ∀ (k : Nat) (g t : ℚ), irradiance[k]? = some g → ts[k]? = some t →
            out[k]? = some (max 0 (s.installed_capacity_kw * (max g 0 / 1000) *
              (1 + s.temp_coefficient * ((t + 25 * (max g 0 / 1000)) - 25)) *
              s.performance_ratio))) ∧
    (∃ out, s.simulate irradiance none = .ok out ∧ out.length = irradiance.length ∧
        ∀ (k : Nat) (g : ℚ), irradiance[k]? = some g →
          out[k]? = some (max 0 (s.installed_capacity_kw * (max g 0 / 1000) *
            (1 + s.temp_coefficient * ((25 : ℚ) - 25)) * s.performance_ratio))) := by
  refine ⟨?_, ?_, ?_⟩
  · intro ts hne
    refine ⟨"temperatures length must match irradiance length", ?_⟩
    simp [SolarSimulator.simulate, hne]
  · intro ts heq
    refine ⟨(irradiance.zip ts).map (fun gt =>
        max (s.installed_capacity_kw * (max gt.1 0 / 1000) *
          s.temp_derating (SolarSimulator.cell_temperature gt.2 (max gt.1 0)) *
          s.performance_ratio) 0), ?_, ?_, ?_⟩
    · simp [SolarSimulator.simulate, heq]
    · simp [List.length_zip, heq]
    · intro k g t hg ht
      rw [List.getElem?_map, getElem?_zip, hg, ht]
      simp only [Option.map_some']
      congr 1
      rw [max_comm]
      simp only [SolarSimulator.cell_temperature, SolarSimulator.temp_derating]
  · refine ⟨_, rfl, by simp, ?_⟩
    intro k g hg
    rw [List.getElem?_map, hg]
    simp only [Option.map_some']
    congr 1
    rw [max_comm]
    simp only [SolarSimulator.temp_derating]

/-- Witness for C2 at concrete inputs: a 100 kW array at 80 percent
performance ratio and zero temperature coefficient produces 80 kW at STC
irradiance, and a mismatched temperature list is rejected. -/
theorem solar_simulate_spec_witness :
    (∃ e, (SolarSimulator.mk 100 (4 / 5) 0).simulate [1000] (some [20, 21]) = .error e) ∧
    ((SolarSimulator.mk 100 (4 / 5) 0).simulate [1000] none = .ok [80]) := by
  constructor
  · exact (solar_simulate_spec (SolarSimulator.mk 100 (4 / 5) 0) [1000]).1 [20, 21] (by simp)
  · obtain ⟨out, hout, hlen, hval⟩ := (solar_simulate_spec (SolarSimulator.mk 100 (4 / 5) 0)
      [1000]).2.2
    have h0 := hval 0 1000 rfl
    have hlist : out = [80] := by
      rcases out with _ | ⟨a, t⟩
      · simp at hlen
      · rcases t with _ | ⟨b, t2⟩
        · have ha : some a = some (max 0 (100 * (max (1000 : ℚ) 0 / 1000) * (1 + 0 * ((25 : ℚ) - 25)) * (4 / 5))) := h0
          have : a = 80 := by
            have := Option.some.inj ha
            rw [this]
            norm_num
          rw [this]
        · simp at hlen
    rw [hlist] at hout
    exact hout

/-- Counterexample for C8: with capacity 100, performance ratio 0.8 and
zero temperature coefficient, simulate on two STC samples returns
[80, 80]; capacity_factor returns sum/(capacity*n) = 160/200 = 0.8, while
the claimed value mean/(capacity*n) = 80/200 is 0.4. -/
theorem capacity_factor_counterexample :
    (SolarSimulator.mk 100 (4 / 5) 0).simulate [1000, 1000] none = .ok [80, 80] ∧
    (SolarSimulator.mk 100 (4 / 5) 0).capacity_factor [1000, 1000] none = .ok (4 / 5) ∧
    (((80 : ℚ) + 80) / 2) / (100 * 2) = 2 / 5 ∧ (4 : ℚ) / 5 ≠ 2 / 5 := by
  have hsim : (SolarSimulator.mk 100 (4 / 5) 0).simulate [1000, 1000] none = .ok [80, 80] := by
    simp only [SolarSimulator.simulate, SolarSimulator.temp_derating, List.map_cons,
      List.map_nil, Except.ok.injEq]
    norm_num
  refine ⟨hsim, ?_, by norm_num, by norm_num⟩
  rw [SolarSimulator.capacity_factor, if_neg (by simp), hsim]
  simp only [Except.map]
  norm_num

/-- Amended claim C8: capacity_factor fails on empty irradiance, and
otherwise returns sum(simulate(...)) / (installed_capacity_kw * n) —
equivalently mean(simulate(...)) / installed_capacity_kw, not
mean(simulate(...)) / (installed_capacity_kw * n). -/
theorem capacity_factor_amended (s : SolarSimulator) (irradiance : List ℚ)
    (temperatures : Option (List ℚ)) :
    (irradiance = [] → ∃ e, s.capacity_factor irradiance temperatures = .error e) ∧
    (∀ out : List ℚ, irradiance ≠ [] → s.simulate irradiance temperatures = .ok out →
        s.capacity_factor irradiance temperatures =
          .ok (out.sum / (s.installed_capacity_kw * (out.length : ℚ))) ∧
        s.capacity_factor irradiance temperatures =
          .ok ((out.sum / (out.length : ℚ)) / s.installed_capacity_kw)) := by
  constructor
  · intro he
    subst he
    exact ⟨"irradiance must not be empty", rfl⟩
  · intro out hne hok
    have h1 : s.capacity_factor irradiance temperatures =
        .ok (out.sum / (s.installed_capacity_kw * (out.length : ℚ))) := by
      rw [SolarSimulator.capacity_factor, if_neg (by simpa [List.isEmpty_iff] using hne), hok]
      rfl
    refine ⟨h1, ?_⟩
    rw [h1]
    congr 1
    rw [div_div]
    ring_nf

/-- Witness for the amended C8 at a concrete input. -/
theorem capacity_factor_amended_witness :
    (SolarSimulator.mk 100 (4 / 5) 0).capacity_factor [1000, 1000] none =
      .ok (([(80 : ℚ), 80].sum) / (100 * (([(80 : ℚ), 80].length : ℕ) : ℚ))) := by
  have hsim : (SolarSimulator.mk 100 (4 / 5) 0).simulate [1000, 1000] none = .ok [80, 80] := by
    simp only [SolarSimulator.simulate, SolarSimulator.temp_derating, List.map_cons,
      List.map_nil, Except.ok.injEq]
    norm_num
  exact ((capacity_factor_amended (SolarSimulator.mk 100 (4 / 5) 0) [1000, 1000] none).2
    [80, 80] (by simp) hsim).1

lemma lagSeq_length (k : ℚ) : ∀ (ts : List ℚ) (t0 : ℚ), (lagSeq k t0 ts).length = ts.length := by
  intro ts
  induction ts with
  | nil => intro t0; rfl
  | cons t rest ih => intro t0; simp [lagSeq, ih]

lemma simGo_eq_zip (s : DatacenterSimulator) (kS kL : ℚ) :
    ∀ (ts : List ℚ) (a b : ℚ),
      DatacenterSimulator.simGo s kS kL a b ts =
        ((lagSeq kS a ts).zip (lagSeq kL b ts)).map fun p =>
          s.it_load_kw * s.utilisation *
            (s.pue_base + s.pue_temp_coeff *
              max 0 (s.alpha * p.1 + (1 - s.alpha) * p.2 - s.t_setpoint)) := by
  intro ts
  induction ts with
  | nil => intro a b; rfl
  | cons t rest ih =>
      intro a b
      simp only [DatacenterSimulator.simGo, lagSeq, List.zip_cons_cons, List.map_cons,
        List.cons.injEq]
      exact ⟨by trivial, ih _ _⟩

/-- Counterexample for C3: with the source default parameters and IT load
100 kW, a single 30 degree sample yields the load 75 kW exactly — the
claimed extra deterministic jitter term keyed on T_amb (the jitter
function of the repository at key "30.0", default range, value 1.1) is
not added, so
the claimed output differs from the actual one. -/
theorem datacenter_jitter_counterexample :
    (DatacenterSimulator.mk 100 (1 / 2) (7 / 5) (1 / 100) 20 1 6 (7 / 10)
      (1 / 2)).simulate [30] none = [75] ∧
    predictable_jitter "30.0" 10 2 = 11 / 10 ∧
    100 * (1 / 2 : ℚ) * ((7 / 5) + (1 / 100) * max 0 ((7 / 10) * 30 + (1 - 7 / 10) * 30 - 20)) +
      predictable_jitter "30.0" 10 2 ≠ 75 := by
  have hj : predictable_jitter "30.0" 10 2 = 11 / 10 := by
    rw [predictable_jitter_eval "30.0" 111 sha_str_30]
    norm_num [pyRound, roundHalfEven]
  refine ⟨?_, hj, ?_⟩
  · simp only [DatacenterSimulator.simulate, DatacenterSimulator.simGo, Option.getD,
      List.cons.injEq, and_true]
    norm_num
  · rw [hj]
    norm_num

/-- Amended claim C3: DatacenterSimulator.simulate returns one load per
sample (empty input yields empty output), via the sequential recurrence
with both lag temperatures initialized to initial_temp if given else the
first sample, gains min(dt/tau, 1), T_eff = alpha*T_short +
(1-alpha)*T_long, PUE = pue_base + pue_temp_coeff*max(0, T_eff -
setpoint), and each emitted load equal to it_load_kw * utilisation * PUE
exactly — no jitter term is added. -/
theorem datacenter_simulate_amended (s : DatacenterSimulator) (temps : List ℚ)
    (t_init : Option ℚ) :
    (temps = [] → s.simulate temps t_init = []) ∧
    (s.simulate temps t_init).length = temps.length ∧
    (∀ (t0 : ℚ) (rest : List ℚ), temps = t0 :: rest →
        s.simulate temps t_init =
          ((lagSeq (min (s.interval_hours / s.tau_cooling_hours) 1) (t_init.getD t0) temps).zip
            (lagSeq (min (s.interval_hours / s.tau_mass_hours) 1) (t_init.getD t0) temps)).map
            fun p => s.it_load_kw * s.utilisation *
              (s.pue_base + s.pue_temp_coeff *
                max 0 (s.alpha * p.1 + (1 - s.alpha) * p.2 - s.t_setpoint))) := by
  refine ⟨?_, ?_, ?_⟩
  · intro h
    subst h
    rfl
  · rcases temps with _ | ⟨t0, rest⟩
    · rfl
    · simp only [DatacenterSimulator.simulate]
      rw [simGo_eq_zip]
      simp [List.length_zip, lagSeq_length]
  · intro t0 rest h
    subst h
    simp only [DatacenterSimulator.simulate]
    exact simGo_eq_zip s _ _ (t0 :: rest) _ _

/-- Witness for the amended C3 at concrete inputs. -/
theorem datacenter_simulate_amended_witness :
    (DatacenterSimulator.mk 100 (1 / 2) (7 / 5) (1 / 100) 20 1 6 (7 / 10)
        (1 / 2)).simulate [] none = [] ∧
    (DatacenterSimulator.mk 100 (1 / 2) (7 / 5) (1 / 100) 20 1 6 (7 / 10)
        (1 / 2)).simulate [30] none = [75] := by
  constructor
  · exact (datacenter_simulate_amended _ [] none).1 rfl
  · have h := (datacenter_simulate_amended (DatacenterSimulator.mk 100 (1 / 2) (7 / 5)
      (1 / 100) 20 1 6 (7 / 10) (1 / 2)) [30] none).2.2 30 [] rfl
    rw [h]
    simp only [lagSeq, Option.getD, List.zip_cons_cons, List.map_cons, List.map_nil,
      List.cons.injEq, and_true]
    norm_num

lemma foldl_append_flatten {α β : Type} (f : α → List β) :
    ∀ (l : List α) (acc : List β),
      l.foldl (fun a x => a ++ f x) acc = acc ++ (l.map f).flatten := by
  intro l
  induction l with
  | nil => intro acc; simp
  | cons x t ih => intro acc; simp [List.foldl_cons, ih]

/-- Claim C7: WeatherSimulator.simulate fails on an empty profile list;
otherwise it concatenates, in input order, one per-day series per
profile, whose i-th value is a + b*cos(2 pi t/24) + c*sin(2 pi t/24)
(here cosf t and sinf t stand for the two transcendental factors) at
t = i*interval_hours for i = 0..round(24/interval_hours)-1, with
a = (night+morning+afternoon+evening)/4, b = (night-afternoon)/2,
c = (morning-evening)/2, each value clamped into [t_min, t_max] when the
profile supplies them and clamping is enabled. -/
theorem weather_simulate_spec (w : WeatherSimulator) (cosf sinf : ℚ → ℚ)
    (profiles : List DailyProfile) :
    (profiles = [] → ∃ e, w.simulate cosf sinf profiles = .error e) ∧
    (profiles ≠ [] → w.simulate cosf sinf profiles =
        .ok ((profiles.map (w.simulate_day cosf sinf)).flatten)) ∧
    (∀ p : DailyProfile,
        (w.simulate_day cosf sinf p).length =
          (roundHalfEven (24 / interval_hours w.interval)).toNat ∧
        (w.interval = .min15 → (w.simulate_day cosf sinf p).length = 96) ∧
        (w.interval = .min30 → (w.simulate_day cosf sinf p).length = 48) ∧
        (w.interval = .hourly → (w.simulate_day cosf sinf p).length = 24) ∧
        (∀ i : Nat, i < (w.simulate_day cosf sinf p).length →
          (w.simulate_day cosf sinf p)[i]? = some (
            let t : ℚ := (i : ℚ) * interval_hours w.interval
            let a := (p.night + p.morning + p.afternoon + p.evening) / 4
            let b := (p.night - p.afternoon) / 2
            let c := (p.morning - p.evening) / 2
            let v := a + b * cosf t + c * sinf t
            let v1 := if w.clamp then
                match p.t_min with
                | some m => max v m
                | none => v
              else v
            if w.clamp then
              match p.t_max with
              | some m => min v1 m
              | none => v1
            else v1))) := by
  refine ⟨?_, ?_, ?_⟩
  · intro h
    subst h
    exact ⟨"profiles must not be empty", rfl⟩
  · intro h
    rw [WeatherSimulator.simulate, if_neg (by simpa [List.isEmpty_iff] using h),
      foldl_append_flatten]
    rfl
  · intro p
    have hlen : (w.simulate_day cosf sinf p).length =
        (roundHalfEven (24 / interval_hours w.interval)).toNat := by
      simp [WeatherSimulator.simulate_day]
    refine ⟨hlen, ?_, ?_, ?_, ?_⟩
    · intro hi
      rw [hlen, hi]
      norm_num [interval_hours, roundHalfEven]
      rfl
    · intro hi
      rw [hlen, hi]
      norm_num [interval_hours, roundHalfEven]
      rfl
    · intro hi
      rw [hlen, hi]
      norm_num [interval_hours, roundHalfEven]
      rfl
    · intro i hi
      rw [hlen] at hi
      simp only [WeatherSimulator.simulate_day, WeatherSimulator.fit, List.getElem?_map,
        List.getElem?_range hi, Option.map_some']

/-- Witness for C7 at concrete inputs: the empty profile list is
rejected, and a 15-minute simulator emits 96 samples per day. -/
theorem weather_simulate_spec_witness :
    (∃ e, (WeatherSimulator.mk .min15 false).simulate (fun _ => 1) (fun _ => 0) [] = .error e) ∧
    ((WeatherSimulator.mk .min15 false).simulate_day (fun _ => 1) (fun _ => 0)
      (DailyProfile.mk 12 18 14 8 none none)).length = 96 :=
  ⟨(weather_simulate_spec (WeatherSimulator.mk .min15 false) (fun _ => 1) (fun _ => 0) []).1 rfl,
   ((weather_simulate_spec (WeatherSimulator.mk .min15 false) (fun _ => 1) (fun _ => 0) []).2.2
     (DailyProfile.mk 12 18 14 8 none none)).2.1 rfl⟩

lemma sum_sub_sq (x : ℚ) : ∀ xs : List ℚ,
    ((xs.map fun y => (x - y) * (x - y)).sum) =
      (xs.length : ℚ) * (x * x) - 2 * x * xs.sum + (xs.map fun y => y * y).sum := by
  intro xs
  induction xs with
  | nil => simp
  | cons y t ih =>
      simp only [List.map_cons, List.sum_cons, List.length_cons, ih]
      push_cast
      ring

/-- The n-scaled variance numerator n * sum of squares minus square of
sum, the factor of den_sq in the source Pearson computation. -/
def varNum (xs : List ℚ) : ℚ :=
  (xs.length : ℚ) * (xs.map fun x => x * x).sum - xs.sum ^ 2

lemma varNum_cons (x : ℚ) (xs : List ℚ) :
    varNum (x :: xs) = varNum xs + ((xs.map fun y => (x - y) * (x - y)).sum) := by
  unfold varNum
  rw [sum_sub_sq]
  simp only [List.map_cons, List.sum_cons, List.length_cons]
  push_cast
  ring

lemma sq_list_nonneg (xs : List ℚ) (x : ℚ) :
    0 ≤ ((xs.map fun y => (x - y) * (x - y)).sum) := by
  apply List.sum_nonneg
  intro z hz
  rw [List.mem_map] at hz
  obtain ⟨y, _, rfl⟩ := hz
  exact mul_self_nonneg _

lemma varNum_nonneg : ∀ xs : List ℚ, 0 ≤ varNum xs := by
  intro xs
  induction xs with
  | nil => simp [varNum]
  | cons x t ih =>
      rw [varNum_cons]
      have := sq_list_nonneg t x
      linarith

lemma sum_nonneg_all_zero : ∀ l : List ℚ, (∀ x ∈ l, 0 ≤ x) → l.sum = 0 → ∀ x ∈ l, x = 0 := by
  intro l
  induction l with
  | nil => intro _ _ x hx; cases hx
  | cons a t ih =>
      intro hpos hsum x hx
      have ha : 0 ≤ a := hpos a (by simp)
      have ht : 0 ≤ t.sum := List.sum_nonneg fun z hz => hpos z (by simp [hz])
      rw [List.sum_cons] at hsum
      rcases List.mem_cons.mp hx with rfl | hx'
      · linarith
      · exact ih (fun z hz => hpos z (by simp [hz])) (by linarith) x hx'

lemma varNum_eq_zero_iff : ∀ xs : List ℚ, varNum xs = 0 ↔ AllEq xs := by
  intro xs
  induction xs with
  | nil =>
      simp [varNum, AllEq]
  | cons x t ih =>
      rw [varNum_cons]
      have h1 : 0 ≤ varNum t := varNum_nonneg t
      have h2 : 0 ≤ ((t.map fun y => (x - y) * (x - y)).sum) := sq_list_nonneg t x
      constructor
      · intro h
        have hv : varNum t = 0 := by linarith
        have hs : ((t.map fun y => (x - y) * (x - y)).sum) = 0 := by linarith
        have hz := sum_nonneg_all_zero _ (fun z hz => by
          rw [List.mem_map] at hz
          obtain ⟨y, _, rfl⟩ := hz
          exact mul_self_nonneg _) hs
        have hyx : ∀ y ∈ t, y = x := by
          intro y hy
          have hzz := hz ((x - y) * (x - y)) (List.mem_map_of_mem _ hy)
          have := mul_self_eq_zero.mp hzz
          linarith [sub_eq_zero.mp this]
        intro a ha b hb
        rcases List.mem_cons.mp ha with rfl | ha' <;> rcases List.mem_cons.mp hb with rfl | hb'
        · rfl
        · exact (hyx b hb').symm
        · exact hyx a ha'
        · exact (ih.mp hv) a ha' b hb'
      · intro h
        have hAll : AllEq t := fun a ha b hb =>
          h a (List.mem_cons_of_mem _ ha) b (List.mem_cons_of_mem _ hb)
        have hyx : ∀ y ∈ t, y = x := fun y hy =>
          h y (List.mem_cons_of_mem _ hy) x (List.mem_cons_self _ _)
        have hs : ((t.map fun y => (x - y) * (x - y)).sum) = 0 := by
          apply List.sum_eq_zero
          intro z hz
          rw [List.mem_map] at hz
          obtain ⟨y, hy, rfl⟩ := hz
          rw [hyx y hy]
          ring
        rw [ih.mpr hAll, hs]
        ring

lemma pearsonND_eq_none_iff (xs ys : List ℚ) (h : xs.length = ys.length) :
    pearsonND xs ys = none ↔ xs.length < 2 ∨ AllEq xs ∨ AllEq ys := by
  unfold pearsonND
  dsimp only
  by_cases h2 : xs.length < 2
  · simp [h2]
  · rw [if_neg h2]
    have hd : ((xs.length : ℚ) * (xs.map fun x => x * x).sum - xs.sum ^ 2) *
        ((xs.length : ℚ) * (ys.map fun y => y * y).sum - ys.sum ^ 2) =
        varNum xs * varNum ys := by
      unfold varNum
      rw [h]
    rw [hd]
    split_ifs with hden
    · simp only [true_iff]
      have hnn := mul_nonneg (varNum_nonneg xs) (varNum_nonneg ys)
      have heq : varNum xs * varNum ys = 0 := le_antisymm hden hnn
      rcases mul_eq_zero.mp heq with hz | hz
      · exact Or.inr (Or.inl ((varNum_eq_zero_iff xs).mp hz))
      · exact Or.inr (Or.inr ((varNum_eq_zero_iff ys).mp hz))
    · simp only [reduceCtorEq, false_iff]
      push_neg
      refine ⟨by omega, ?_, ?_⟩
      · intro hAll
        exact hden (le_of_eq (by rw [(varNum_eq_zero_iff xs).mpr hAll, zero_mul]))
      · intro hAll
        exact hden (le_of_eq (by rw [(varNum_eq_zero_iff ys).mpr hAll, mul_zero]))

lemma windowPairs_mem (a b : List (Int × ℚ)) (ts : Int) (x y : ℚ) :
    (x, y) ∈ windowPairs a b ts ↔
      ∃ t : Int, ts - 95 ≤ t ∧ t ≤ ts ∧ a.lookup t = some x ∧ b.lookup t = some y := by
  unfold windowPairs
  rw [List.mem_filterMap]
  constructor
  · rintro ⟨t, ht, hm⟩
    rw [List.mem_map] at ht
    obtain ⟨i, hi, rfl⟩ := ht
    rw [List.mem_range] at hi
    refine ⟨ts - 95 + (i : Int), by omega, by omega, ?_⟩
    rcases hla : a.lookup (ts - 95 + (i : Int)) with _ | x' <;>
      rcases hlb : b.lookup (ts - 95 + (i : Int)) with _ | y' <;>
        rw [hla, hlb] at hm
    · simp at hm
    · simp at hm
    · simp at hm
    · simp only [Option.some.injEq, Prod.mk.injEq] at hm
      obtain ⟨hm1, hm2⟩ := hm
      subst hm1
      subst hm2
      exact ⟨rfl, rfl⟩
  · rintro ⟨t, h1, h2, hx, hy⟩
    refine ⟨t, ?_, ?_⟩
    · rw [List.mem_map]
      refine ⟨(t - (ts - 95)).toNat, by rw [List.mem_range]; omega, by omega⟩
    · rw [hx, hy]

/-- Counterexample for C4: a customer with production and consumption
data but no irradiance and no weather rows is skipped entirely — zero
rows are emitted instead of one row per each of the 96 slots. -/
theorem pearson_skip_counterexample :
    pearsonRun [] [((0 : Int), (1 : ℚ))] [] [((0 : Int), (1 : ℚ))] = [] ∧
    (pearsonRun [] [((0 : Int), (1 : ℚ))] [] [((0 : Int), (1 : ℚ))]).length ≠ 96 := by
  have h : pearsonRun [] [((0 : Int), (1 : ℚ))] [] [((0 : Int), (1 : ℚ))] = [] := rfl
  refine ⟨h, ?_⟩
  rw [h]
  simp

/-- Amended claim C4: provided the customer has at least one irradiance
or one temperature reading in the fetch window (otherwise it is skipped
and emits no rows), the engine emits exactly one row per each of the 96
15-minute slots of the target date regardless of data completeness; the
coefficients of row k are the sum-based Pearson data of the pairs at
timestamps present in both series within the trailing 24-hour window
[k-95, k] (inclusive), and a coefficient is null exactly when fewer than
2 paired samples exist or either paired series has zero variance in the
window. -/
theorem pearson_rows_amended (irr prod temp cons : List (Int × ℚ))
    (h : ¬(irr = [] ∧ temp = [])) :
    (pearsonRun irr prod temp cons).length = 96 ∧
    (∀ k : Nat, k < 96 →
      (pearsonRun irr prod temp cons)[k]? = some
        ⟨(k : Int),
          pearsonND ((windowPairs irr prod (k : Int)).map Prod.fst)
            ((windowPairs irr prod (k : Int)).map Prod.snd),
          pearsonND ((windowPairs temp cons (k : Int)).map Prod.fst)
            ((windowPairs temp cons (k : Int)).map Prod.snd)⟩) ∧
    (∀ (a b : List (Int × ℚ)) (ts : Int),
      (pearsonND ((windowPairs a b ts).map Prod.fst)
          ((windowPairs a b ts).map Prod.snd) = none ↔
        (windowPairs a b ts).length < 2 ∨
          AllEq ((windowPairs a b ts).map Prod.fst) ∨
          AllEq ((windowPairs a b ts).map Prod.snd))) ∧
    (∀ (a b : List (Int × ℚ)) (ts : Int) (x y : ℚ),
      (x, y) ∈ windowPairs a b ts ↔
        ∃ t : Int, ts - 95 ≤ t ∧ t ≤ ts ∧ a.lookup t = some x ∧ b.lookup t = some y) := by
  have hc : ¬(irr.isEmpty && temp.isEmpty) = true := by
    simpa [List.isEmpty_iff] using h
  refine ⟨?_, ?_, ?_, ?_⟩
  · rw [pearsonRun, if_neg hc]
    simp
  · intro k hk
    rw [pearsonRun, if_neg hc, List.getElem?_map, List.getElem?_range hk]
    rfl
  · intro a b ts
    have hlen : ((windowPairs a b ts).map Prod.fst).length =
        ((windowPairs a b ts).map Prod.snd).length := by
      simp
    have := pearsonND_eq_none_iff ((windowPairs a b ts).map Prod.fst)
      ((windowPairs a b ts).map Prod.snd) hlen
    rwa [List.length_map] at this
  · exact windowPairs_mem

/-- Witness for the amended C4 at a concrete input. -/
theorem pearson_rows_amended_witness :
    (pearsonRun [((0 : Int), (1 : ℚ))] [] [] []).length = 96 :=
  (pearson_rows_amended [((0 : Int), (1 : ℚ))] [] [] [] (by simp)).1

lemma filterMap_block_eq (f : List Stage) (d : Nat) :
    (f.map fun s => (d, s)).filterMap
      (fun p : Nat × Stage => if p.1 = d then some p.2 else none) = f := by
  induction f with
  | nil => rfl
  | cons s t ih => simp [List.filterMap_cons, ih]

lemma filterMap_block_ne (f : List Stage) (k d : Nat) (h : k ≠ d) :
    (f.map fun s => (k, s)).filterMap
      (fun p : Nat × Stage => if p.1 = d then some p.2 else none) = [] := by
  induction f with
  | nil => rfl
  | cons s t ih => simp [List.filterMap_cons, ih, h]

lemma filterMap_blocks_nil (ds : List Nat) (f : Nat → List Stage) (d : Nat) (h : d ∉ ds) :
    ((ds.map fun k => (f k).map fun s => (k, s)).flatten).filterMap
      (fun p : Nat × Stage => if p.1 = d then some p.2 else none) = [] := by
  induction ds with
  | nil => rfl
  | cons k tl ih =>
      rw [List.map_cons, List.flatten_cons, List.filterMap_append]
      rw [filterMap_block_ne _ _ _ (fun he => h (by simp [he])), List.nil_append]
      exact ih fun hd => h (by simp [hd])

lemma filterMap_blocks (ds : List Nat) (f : Nat → List Stage) (d : Nat)
    (hmem : d ∈ ds) (hnd : ds.Nodup) :
    ((ds.map fun k => (f k).map fun s => (k, s)).flatten).filterMap
      (fun p : Nat × Stage => if p.1 = d then some p.2 else none) = f d := by
  induction ds with
  | nil => cases hmem
  | cons k tl ih =>
      rw [List.map_cons, List.flatten_cons, List.filterMap_append]
      have hk := List.nodup_cons.mp hnd
      rcases List.mem_cons.mp hmem with rfl | hmem'
      · rw [filterMap_block_eq, filterMap_blocks_nil tl f _ hk.1, List.append_nil]
      · have hkd : k ≠ d := fun he => hk.1 (he ▸ hmem')
        rw [filterMap_block_ne _ _ _ hkd, List.nil_append]
        exact ih hmem' hk.2

/-- Claim C5: for a single target date the orchestration chain runs its
stages strictly in the order irradiance, weather, consumption,
production, pearson, stopping right after the first failing stage (in
particular an irradiance failure prevents the consumption, production
and correlation stages); and in backfill mode the sub-trace of any date
in range equals exactly the own chain of that date, whatever failures
other dates have — a failure on one date never prevents the chain of
another date. -/
theorem etl_chain_spec (fails : Stage → Bool) (dfails : Nat → Stage → Bool)
    (start today : Nat) :
    run_etl_chain fails =
      etlOrder.take ((etlOrder.takeWhile fun s => !fails s).length + 1) ∧
    (fails .irradiance = true →
      Stage.consumption ∉ run_etl_chain fails ∧
      Stage.production ∉ run_etl_chain fails ∧
      Stage.pearson ∉ run_etl_chain fails) ∧
    (∀ d : Nat, start ≤ d → d ≤ today →
      (run_backfill dfails start today).filterMap
          (fun p : Nat × Stage => if p.1 = d then some p.2 else none) =
        main_run_etl_chain (dfails d)) := by
  refine ⟨?_, ?_, ?_⟩
  · cases h1 : fails .irradiance <;> cases h2 : fails .weather <;>
      cases h3 : fails .consumption <;> cases h4 : fails .production <;>
        simp [run_etl_chain, etlOrder, h1, h2, h3, h4, List.takeWhile]
  · intro h
    simp [run_etl_chain, h]
  · intro d hsd hdt
    rw [run_backfill, if_neg (by omega)]
    have hmm : ((List.range (today - start + 1)).map fun k =>
        (main_run_etl_chain (dfails (start + k))).map fun s => (start + k, s)) =
      (((List.range (today - start + 1)).map fun k => start + k).map fun k =>
        (main_run_etl_chain (dfails k)).map fun s => (k, s)) := by
      rw [List.map_map]
      rfl
    rw [hmm]
    apply filterMap_blocks
    · rw [List.mem_map]
      exact ⟨d - start, by rw [List.mem_range]; omega, by omega⟩
    · exact List.Nodup.map (fun a b hab => by omega) (List.nodup_range _)

/-- Witness for C5 at a concrete failure pattern and date range. -/
theorem etl_chain_spec_witness :
    ((Stage.consumption ∉ run_etl_chain fun _ => true) ∧
      (Stage.production ∉ run_etl_chain fun _ => true) ∧
      (Stage.pearson ∉ run_etl_chain fun _ => true)) ∧
    (run_backfill (fun _ _ => false) 0 1).filterMap
        (fun p : Nat × Stage => if p.1 = 1 then some p.2 else none) =
      main_run_etl_chain ((fun _ _ => false) 1) :=
  ⟨(etl_chain_spec (fun _ => true) (fun _ _ => false) 0 1).2.1 rfl,
   (etl_chain_spec (fun _ => true) (fun _ _ => false) 0 1).2.2 1 (by omega) (by omega)⟩
